import Mathlib

/-!
Verification of the argument-snapshot utilities of allure-python-commons
(`src/utils.py`): the canonical representer `represent` (lines 52-106), the
argument binder and snapshot facade `func_parameters` (lines 109-261), and the
exception renderer `format_exception` (lines 268-316).  The embedding follows
the Python 3 execution path of the source (`sys.version_info.major >= 3`).
Python runtime values are modelled by the inductive type `Value`; Python dicts
are modelled as insertion-ordered association lists with unique keys, with the
dict operations the source uses (`dict(zip(..))`, `update`, `pop`) translated
one-for-one.  A Python call that raises is modelled by `Option`/`none`.
-/

set_option autoImplicit false

/-- Python runtime values, as far as the snapshot utilities inspect them:
text strings (`six.text_type`, i.e. `str` on Python 3), `bytes`,
`bytearray`, integers, `None`, tuples (the binder builds one for surplus
positional arguments), and opaque object instances.  An object carries the
outcome of its rendering hook (`__repr__`): `some s` when the hook returns
the string `s`, `none` when the hook raises. -/
inductive Value : Type where
  | str (s : String)
  | bytes (bs : List Nat)
  | bytearray (bs : List Nat)
  | int (n : Int)
  | pynone
  | tuple (vs : List Value)
  | obj (reprHook : Option String)

/-- Model of the host primitive `repr` applied to a byte, inside the repr of a
`bytes` object: the byte rendered as a hexadecimal escape.  (The host also
prints printable ASCII bytes literally; the claims never depend on that, only
on totality of byte rendering, which this model shares.) -/
def byteEscape (n : Nat) : String :=
  "\\x" ++ String.mk [Nat.digitChar (n / 16 % 16), Nat.digitChar (n % 16)]

mutual

/-- Model of the host primitive `repr` (the default debug rendering).
`some` is a normal return, `none` models `repr` raising, which happens
exactly when a misbehaving object rendering hook (`__repr__`) raises.
Strings are rendered quoted (the host additionally escapes quotes and
control characters, which no claim depends on); integers in decimal;
`None` as its name; tuples recursively with the host's singleton comma. -/
def reprPy : Value → Option String
  | .str s => some ("'" ++ s ++ "'")
  | .bytes bs => some ("b'" ++ String.join (bs.map byteEscape) ++ "'")
  | .bytearray bs => some ("bytearray(b'" ++ String.join (bs.map byteEscape) ++ "')")
  | .int n => some (toString n)
  | .pynone => some "None"
  | .tuple vs =>
      match reprPyList vs with
      | none => none
      | some rs =>
          some ("(" ++ String.intercalate ", " rs ++ (if rs.length = 1 then ",)" else ")"))
  | .obj reprHook => reprHook

/-- Renders every element of a list with `reprPy`, propagating failure. -/
def reprPyList : List Value → Option (List String)
  | [] => some []
  | v :: vs =>
      match reprPy v, reprPyList vs with
      | some r, some rs => some (r :: rs)
      | _, _ => none

end

/-- Translation of `isinstance(item, six.text_type)` (utils.py line 101):
on Python 3, `six.text_type` is `str`. -/
def isTextType : Value → Bool
  | .str _ => true
  | _ => false

/-- Translation of `isinstance(item, (bytes, bytearray))` (utils.py line 103). -/
def isBinaryType : Value → Bool
  | .bytes _ => true
  | .bytearray _ => true
  | _ => false

/-- Model of the host primitive `repr(type(item))` (utils.py line 104): the
type descriptor of a value, independent of its content. -/
def typeRepr : Value → String
  | .str _ => "<class 'str'>"
  | .bytes _ => "<class 'bytes'>"
  | .bytearray _ => "<class 'bytearray'>"
  | .int _ => "<class 'int'>"
  | .pynone => "<class 'NoneType'>"
  | .tuple _ => "<class 'tuple'>"
  | .obj _ => "<class 'object'>"

/-- Content of a text value; only consulted under the `isTextType` guard
(the `u'\'%s\'' % item` formatting of utils.py line 102). -/
def strContent : Value → String
  | .str s => s
  | _ => ""

/-- Translation of `represent` (utils.py lines 52-106, Python 3 path: the
`version_info.major < 3` decode block of lines 95-99 is skipped).  Textual
values are wrapped in single quotes with the content inserted verbatim;
`bytes`/`bytearray` yield only their type descriptor; everything else is
handed to the host `repr`, whose failure (a raising rendering hook)
propagates. -/
def represent (item : Value) : Option String :=
  if isTextType item then some ("'" ++ strContent item ++ "'")
  else if isBinaryType item then some (typeRepr item)
  else reprPy item

namespace PyDict

/-- Python dict assignment `d[k] = v` on an insertion-ordered association
list: replace the value in place if the key is present, otherwise append. -/
def setk {α : Type} : List (String × α) → String → α → List (String × α)
  | [], k, v => [(k, v)]
  | p :: d, k, v => if p.1 = k then (k, v) :: d else p :: setk d k v

/-- Python `d.update(e)`: assign every entry of `e` into `d`, in order. -/
def update {α : Type} (d e : List (String × α)) : List (String × α) :=
  e.foldl (fun acc p => setk acc p.1 p.2) d

/-- Python `dict(pairs)`: assign the pairs into an empty dict, in order. -/
def dictOf {α : Type} (ps : List (String × α)) : List (String × α) :=
  update [] ps

/-- Python `d.get(k)` / `d[k]` lookup (first occurrence of the key). -/
def getk {α : Type} : List (String × α) → String → Option α
  | [], _ => none
  | p :: d, k => if p.1 = k then some p.2 else getk d k

/-- Python `d.pop(k, None)`: remove the entries with key `k`; never raises. -/
def popk {α : Type} : List (String × α) → String → List (String × α)
  | [], _ => []
  | p :: d, k => if p.1 = k then popk d k else p :: popk d k

/-- The keys of a dict, in order. -/
def keys {α : Type} (d : List (String × α)) : List String :=
  d.map Prod.fst

/-- Key `k` has no entry in `d`. -/
def keyFree {α : Type} (d : List (String × α)) (k : String) : Prop :=
  ∀ p ∈ d, p.1 ≠ k

end PyDict

open PyDict

/-- Translation of the result of `inspect.getfullargspec(func)` (utils.py
line 243, Python 3 path): the declared positional parameter names in order,
the optional variadic-positional name, the optional variadic-keyword name,
and the tuple of default values for the trailing parameters (`None` and the
empty tuple are both modelled as the empty list, matching the falsiness test
`if arg_spec.defaults:`). -/
structure ArgSpec : Type where
  args : List String
  varargs : Option String
  varkw : Option String
  defaults : List Value

/-- Translation of `args_dict = dict(zip(arg_spec.args, args))` (utils.py
line 244). -/
def argsDict (spec : ArgSpec) (args : List Value) : List (String × Value) :=
  dictOf (List.zip spec.args args)

/-- Translation of utils.py lines 246-248: when the defaults tuple is truthy,
update `parameters` with `dict(zip(arg_spec.args[len(args):], arg_spec.defaults))`. -/
def withDefaults (spec : ArgSpec) (args : List Value)
    (parameters : List (String × Value)) : List (String × Value) :=
  if spec.defaults.isEmpty then parameters
  else update parameters (dictOf (List.zip (spec.args.drop args.length) spec.defaults))

/-- Translation of utils.py lines 250-252: when a variadic-positional name is
present, update `parameters` with the surplus `args[len(arg_spec.args):]`
(packed as a tuple) under that name, or with the empty dict when there is no
surplus. -/
def withVarargs (spec : ArgSpec) (args : List Value)
    (parameters : List (String × Value)) : List (String × Value) :=
  match spec.varargs with
  | none => parameters
  | some name =>
      let varargs := args.drop spec.args.length
      update parameters (if varargs.isEmpty then [] else [(name, Value.tuple varargs)])

/-- Translation of utils.py lines 254-255: when the first declared name is
`cls` or `self`, remove it from `args_dict` (with `pop(..., None)`, which
never raises). -/
def finalArgsDict (spec : ArgSpec) (args : List Value) : List (String × Value) :=
  match spec.args with
  | [] => argsDict spec args
  | a0 :: _ =>
      if a0 = "cls" ∨ a0 = "self" then popk (argsDict spec args) a0
      else argsDict spec args

/-- Translation of the binding part of `func_parameters` (utils.py lines
242-258): start from the empty `parameters` dict, apply the defaults update,
the varargs update, then `parameters.update(kwargs)` (line 257) and
`parameters.update(args_dict)` (line 258), in the source's order. -/
def bindParameters (spec : ArgSpec) (args : List Value)
    (kwargs : List (String × Value)) : List (String × Value) :=
  update (update (withVarargs spec args (withDefaults spec args [])) kwargs)
    (finalArgsDict spec args)

/-- Translation of utils.py lines 260-261 on top of the binding: every bound
value is rendered with `represent` and the pairs are collected with `dict`.
A raising rendering hook propagates out of `func_parameters`, modelled by
`none`. -/
def func_parameters (spec : ArgSpec) (args : List Value)
    (kwargs : List (String × Value)) : Option (List (String × String)) :=
  match (bindParameters spec args kwargs).mapM
      (fun kv => (represent kv.2).map (fun s => (kv.1, s))) with
  | none => none
  | some prs => some (dictOf prs)

/-- Translation of `format_exception` (utils.py lines 268-316).  The host
renderer `format_exception_only` (imported from `traceback` on Python 3) is
an external collaborator; it is taken as an explicit total function
argument.  Absent inputs are `none`; a present exception type (a class) or
exception value (an instance) is truthy, so the source's `if etype or value`
is the presence test.  `'\n'.join` is `String.intercalate`. -/
def format_exception {α β : Type} (feo : Option α → Option β → List String)
    (etype : Option α) (value : Option β) : Option String :=
  if etype.isSome || value.isSome then
    some (String.intercalate "\n" (feo etype value))
  else none

mutual

/-- Every rendering hook reachable inside the value returns normally: the
value is not an object whose hook raises, and tuples are hook-free
elementwise.  Text, binary, numeric and `None` values have no hook. -/
def hookFree : Value → Bool
  | .tuple vs => hookFreeList vs
  | .obj reprHook => reprHook.isSome
  | _ => true

/-- Every element of the list is `hookFree`. -/
def hookFreeList : List Value → Bool
  | [] => true
  | v :: vs => hookFree v && hookFreeList vs

end

namespace PyDict

theorem keyFree_nil {α : Type} (k : String) : keyFree ([] : List (String × α)) k := by
  intro p hp; cases hp

theorem getk_eq_none_of_keyFree {α : Type} {d : List (String × α)} {k : String}
    (h : keyFree d k) : getk d k = none := by
  induction d with
  | nil => rfl
  | cons p d ih =>
      have hp : p.1 ≠ k := h p (List.mem_cons_self p d)
      simp only [getk, if_neg hp]
      exact ih (fun q hq => h q (List.mem_cons_of_mem p hq))

theorem getk_setk_self {α : Type} (d : List (String × α)) (k : String) (v : α) :
    getk (setk d k v) k = some v := by
  induction d with
  | nil => simp [setk, getk]
  | cons p d ih =>
      by_cases hp : p.1 = k
      · simp [setk, getk, hp]
      · simp [setk, getk, hp, ih]

theorem getk_setk_ne {α : Type} (d : List (String × α)) {k k' : String} (v : α)
    (h : k' ≠ k) : getk (setk d k' v) k = getk d k := by
  induction d with
  | nil => simp [setk, getk, h]
  | cons p d ih =>
      by_cases hp : p.1 = k'
      · simp [setk, getk, hp, h, hp ▸ h]
      · by_cases hk : p.1 = k
        · simp [setk, getk, hp, hk, Ne.symm h]
        · simp [setk, getk, hp, hk, ih]

theorem keyFree_setk {α : Type} {d : List (String × α)} {k k' : String} {v : α}
    (hd : keyFree d k) (h : k' ≠ k) : keyFree (setk d k' v) k := by
  induction d with
  | nil =>
      intro q hq
      simp only [setk, List.mem_singleton] at hq
      subst hq; exact h
  | cons p d ih =>
      by_cases hp : p.1 = k'
      · intro q hq
        simp only [setk, if_pos hp, List.mem_cons] at hq
        rcases hq with hq | hq
        · subst hq; exact h
        · exact hd q (List.mem_cons_of_mem p hq)
      · intro q hq
        simp only [setk, if_neg hp, List.mem_cons] at hq
        rcases hq with hq | hq
        · rw [hq]; exact hd p (List.mem_cons_self p d)
        · exact ih (fun r hr => hd r (List.mem_cons_of_mem p hr)) q hq

theorem keyFree_update {α : Type} {d e : List (String × α)} {k : String}
    (hd : keyFree d k) (he : keyFree e k) : keyFree (update d e) k := by
  induction e generalizing d with
  | nil => exact hd
  | cons p e ih =>
      have hp : p.1 ≠ k := he p (List.mem_cons_self p e)
      exact ih (keyFree_setk hd hp) (fun q hq => he q (List.mem_cons_of_mem p hq))

theorem keyFree_dictOf {α : Type} {ps : List (String × α)} {k : String}
    (h : keyFree ps k) : keyFree (dictOf ps) k :=
  keyFree_update (keyFree_nil k) h

theorem keyFree_popk_self {α : Type} (d : List (String × α)) (k : String) :
    keyFree (popk d k) k := by
  induction d with
  | nil => exact keyFree_nil k
  | cons p d ih =>
      by_cases hp : p.1 = k
      · simpa [popk, hp] using ih
      · intro q hq
        simp only [popk, if_neg hp, List.mem_cons] at hq
        rcases hq with hq | hq
        · rw [hq]; exact hp
        · exact ih q hq

theorem keyFree_popk {α : Type} {d : List (String × α)} {k k' : String}
    (h : keyFree d k) : keyFree (popk d k') k := by
  induction d with
  | nil => exact keyFree_nil k
  | cons p d ih =>
      have hd : keyFree d k := fun q hq => h q (List.mem_cons_of_mem p hq)
      by_cases hp : p.1 = k'
      · simpa [popk, hp] using ih hd
      · intro q hq
        simp only [popk, if_neg hp, List.mem_cons] at hq
        rcases hq with hq | hq
        · rw [hq]; exact h p (List.mem_cons_self p d)
        · exact ih hd q hq

theorem getk_update_of_keyFree {α : Type} {d e : List (String × α)} {k : String}
    (he : keyFree e k) : getk (update d e) k = getk d k := by
  induction e generalizing d with
  | nil => rfl
  | cons p e ih =>
      have hp : p.1 ≠ k := he p (List.mem_cons_self p e)
      have he' : keyFree e k := fun q hq => he q (List.mem_cons_of_mem p hq)
      calc getk (update (setk d p.1 p.2) e) k
          = getk (setk d p.1 p.2) k := ih he'
        _ = getk d k := getk_setk_ne d p.2 hp

theorem getk_update_of_getk {α : Type} {d e : List (String × α)} {k : String} {v : α}
    (hnd : (keys e).Nodup) (h : getk e k = some v) : getk (update d e) k = some v := by
  induction e generalizing d with
  | nil => cases h
  | cons p e ih =>
      rw [keys, List.map_cons, List.nodup_cons] at hnd
      by_cases hp : p.1 = k
      · have hv : p.2 = v := by
          simpa [getk, if_pos hp] using h
        have he : keyFree e k := by
          intro q hq hqk
          apply hnd.1
          have hm : q.1 ∈ List.map Prod.fst e := List.mem_map_of_mem Prod.fst hq
          rwa [hqk, ← hp] at hm
        calc getk (update (setk d p.1 p.2) e) k
            = getk (setk d p.1 p.2) k := getk_update_of_keyFree he
          _ = some v := by rw [hp, getk_setk_self, hv]
      · have h' : getk e k = some v := by
          simpa [getk, if_neg hp] using h
        exact ih hnd.2 h'

end PyDict

theorem keyFree_withDefaults {spec : ArgSpec} {args : List Value}
    {parameters : List (String × Value)} {k : String}
    (hA : ∀ a ∈ spec.args.drop args.length, a ≠ k)
    (hp : keyFree parameters k) : keyFree (withDefaults spec args parameters) k := by
  unfold withDefaults
  split
  · exact hp
  · refine keyFree_update hp (keyFree_dictOf ?_)
    intro p hpz
    obtain ⟨x, y⟩ := p
    exact hA x (List.of_mem_zip hpz).1

theorem keyFree_withVarargs {spec : ArgSpec} {args : List Value}
    {parameters : List (String × Value)} {k : String}
    (hv : ∀ s, spec.varargs = some s → s ≠ k)
    (hp : keyFree parameters k) : keyFree (withVarargs spec args parameters) k := by
  unfold withVarargs
  split
  · exact hp
  next s heq =>
    refine keyFree_update hp ?_
    split
    · exact keyFree_nil k
    · intro p hp2
      simp only [List.mem_singleton] at hp2
      rw [hp2]
      exact hv s heq

theorem keyFree_finalArgsDict {spec : ArgSpec} {args : List Value} {k : String}
    (hzip : keyFree (List.zip spec.args args) k) :
    keyFree (finalArgsDict spec args) k := by
  have h : keyFree (argsDict spec args) k := keyFree_dictOf hzip
  unfold finalArgsDict
  split
  · exact h
  · split
    · exact keyFree_popk h
    · exact h

theorem keyFree_zip_of_not_mem {spec : ArgSpec} {args : List Value} {k : String}
    (h : k ∉ spec.args) : keyFree (List.zip spec.args args) k := by
  intro p hp
  obtain ⟨x, y⟩ := p
  intro hxk
  exact h (hxk ▸ (List.of_mem_zip hp).1)

theorem getk_bindParameters_none {spec : ArgSpec} {args : List Value}
    {kwargs : List (String × Value)} {k : String}
    (h1 : keyFree (withVarargs spec args (withDefaults spec args [])) k)
    (h2 : ∀ p ∈ kwargs, p.1 ≠ k)
    (h3 : keyFree (finalArgsDict spec args) k) :
    getk (bindParameters spec args kwargs) k = none :=
  getk_eq_none_of_keyFree (keyFree_update (keyFree_update h1 h2) h3)

theorem getk_bindParameters_kwargs {spec : ArgSpec} {args : List Value}
    {kwargs : List (String × Value)} {n : String} {v : Value}
    (hnd : (keys kwargs).Nodup) (hlk : getk kwargs n = some v)
    (hzip : keyFree (List.zip spec.args args) n) :
    getk (bindParameters spec args kwargs) n = some v := by
  unfold bindParameters
  rw [getk_update_of_keyFree (keyFree_finalArgsDict hzip)]
  exact getk_update_of_getk hnd hlk

mutual

theorem reprPy_isSome : ∀ v : Value, hookFree v = true → (reprPy v).isSome = true
  | .str _, _ => rfl
  | .bytes _, _ => rfl
  | .bytearray _, _ => rfl
  | .int _, _ => rfl
  | .pynone, _ => rfl
  | .tuple vs, h => by
      have hl := reprPyList_isSome vs (by simpa [hookFree] using h)
      simp only [reprPy]
      cases hrs : reprPyList vs with
      | none => rw [hrs] at hl; cases hl
      | some rs => rfl
  | .obj reprHook, h => by simpa [hookFree, reprPy] using h

theorem reprPyList_isSome : ∀ vs : List Value, hookFreeList vs = true →
    (reprPyList vs).isSome = true
  | [], _ => rfl
  | v :: vs, h => by
      have hv : hookFree v = true := by
        simp only [hookFreeList, Bool.and_eq_true] at h; exact h.1
      have hvs : hookFreeList vs = true := by
        simp only [hookFreeList, Bool.and_eq_true] at h; exact h.2
      have h1 := reprPy_isSome v hv
      have h2 := reprPyList_isSome vs hvs
      simp only [reprPyList]
      cases hr : reprPy v with
      | none => rw [hr] at h1; cases h1
      | some r =>
          cases hrs : reprPyList vs with
          | none => rw [hrs] at h2; cases h2
          | some rs => rfl

end

/-- Claim C1, amended.  An explicitly supplied keyword argument takes
precedence over a default value, and over a positional pairing only when the
name is not in fact paired positionally: under those conditions the binding
maps the name to the keyword value.  (The claim as stated — keyword wins
even when the same name is also paired positionally — is false: utils.py
line 258 applies `parameters.update(args_dict)` after the
`parameters.update(kwargs)` of line 257, so a positionally paired value
overwrites the keyword value; see the counterexample.) -/
theorem keyword_precedence (spec : ArgSpec) (args : List Value)
    (kwargs : List (String × Value)) (n : String) (v : Value)
    (hnd : (keys kwargs).Nodup)
    (hlk : getk kwargs n = some v)
    (hzip : ∀ p ∈ List.zip spec.args args, p.1 ≠ n) :
    getk (bindParameters spec args kwargs) n = some v :=
  getk_bindParameters_kwargs hnd hlk hzip

theorem keyword_precedence_witness :
    getk (bindParameters ⟨["a", "b"], none, none, [Value.int 2]⟩
      [Value.int 1] [("b", Value.int 4)]) "b" = some (Value.int 4) :=
  keyword_precedence ⟨["a", "b"], none, none, [Value.int 2]⟩ [Value.int 1]
    [("b", Value.int 4)] "b" (Value.int 4) (by decide) rfl (by decide)

/-- Claim C1, counterexample to the claim as stated.  Signature `(a)` called
as `f(1, a=2)`: the caller supplies `a` both positionally and as a keyword;
the claim says the keyword value (`represent`-ed as "2") must win, but the
code returns the positionally-bound "1". -/
theorem keyword_precedence_counterexample :
    func_parameters ⟨["a"], none, none, []⟩ [Value.int 1] [("a", Value.int 2)] =
      some [("a", "1")] ∧
    represent (Value.int 2) = some "2" ∧ ("1" : String) ≠ "2" :=
  ⟨rfl, rfl, by decide⟩

/-- Claim C2, code bug.  For signature `(a, b=2, c=3)` called as `f(1, 5)`
the claim (matching Python's binding semantics and the function's own
docstring intent) requires `c` bound to its declared default `3`; utils.py
line 247 zips `arg_spec.args[len(args):]` — here `['c']` — against the whole
defaults tuple `(2, 3)`, so the code binds `c` to `2`, the default declared
for `b`.  This theorem evaluates the translated code at that failing input. -/
theorem defaults_misalignment :
    func_parameters ⟨["a", "b", "c"], none, none, [Value.int 2, Value.int 3]⟩
      [Value.int 1, Value.int 5] [] = some [("c", "2"), ("a", "1"), ("b", "5")] ∧
    getk [("c", "2"), ("a", "1"), ("b", "5")] "c" = some "2" ∧ ("2" : String) ≠ "3" :=
  ⟨rfl, rfl, by decide⟩

/-- Claim C3, amended.  A first parameter named `cls` or `self` is excluded
from the result whenever it is not explicitly passed as a keyword argument
and does not acquire a value through the defaults pairing (the latter can
only happen when no positional values are supplied and the defaults tuple is
nonempty, because utils.py line 247 starts the defaults zip at index
`len(args)`).  The hypotheses also state the wellformedness Python
guarantees for a real function: the receiver name is not repeated among the
later parameter names and differs from the variadic-positional name.  (The
claim as stated — the receiver never appears regardless of binding path —
is false: the pop of utils.py line 255 acts only on `args_dict`, so a
keyword argument named `self` survives the `update(kwargs)` of line 257; see
the counterexample.) -/
theorem receiver_excluded (spec : ArgSpec) (args : List Value)
    (kwargs : List (String × Value)) (r : String) (rest : List String)
    (hargs : spec.args = r :: rest)
    (hr : r = "cls" ∨ r = "self")
    (hk : ∀ p ∈ kwargs, p.1 ≠ r)
    (hrest : r ∉ rest)
    (hvar : ∀ s, spec.varargs = some s → s ≠ r)
    (hdef : args ≠ [] ∨ spec.defaults = []) :
    getk (bindParameters spec args kwargs) r = none := by
  have h1 : keyFree (withDefaults spec args []) r := by
    rcases hdef with hne | hD
    · refine keyFree_withDefaults ?_ (keyFree_nil r)
      cases args with
      | nil => cases hne rfl
      | cons a args' =>
          intro x hx hxr
          rw [hargs, List.length_cons, List.drop_succ_cons] at hx
          exact hrest (hxr ▸ List.mem_of_mem_drop hx)
    · unfold withDefaults
      rw [hD]
      exact keyFree_nil r
  have h2 : keyFree (withVarargs spec args (withDefaults spec args [])) r :=
    keyFree_withVarargs hvar h1
  have h3 : keyFree (finalArgsDict spec args) r := by
    unfold finalArgsDict
    rw [hargs]
    simp only
    rw [if_pos hr]
    exact keyFree_popk_self _ r
  exact getk_bindParameters_none h2 hk h3

theorem receiver_excluded_witness :
    getk (bindParameters ⟨["self", "a"], none, none, []⟩
      [Value.int 9, Value.int 1] [("x", Value.int 3)]) "self" = none :=
  receiver_excluded ⟨["self", "a"], none, none, []⟩ [Value.int 9, Value.int 1]
    [("x", Value.int 3)] "self" ["a"] rfl (Or.inr rfl) (by decide) (by decide)
    (fun s h => nomatch h) (Or.inl (by simp))

/-- Claim C3, counterexample to the claim as stated.  Signature `(self)`
called with the explicit keyword argument `self=7`: the receiver name
appears in the result. -/
theorem receiver_excluded_counterexample :
    func_parameters ⟨["self"], none, none, []⟩ [] [("self", Value.int 7)] =
      some [("self", "7")] ∧
    getk [("self", "7")] "self" = some "7" :=
  ⟨rfl, rfl⟩

/-- Claim C4, amended.  `represent` returns a string for every value all of
whose reachable rendering hooks return normally — in particular for every
string, every binary buffer, and every hook-free container.  (The claim as
stated — `represent` never raises for any value, including instances whose
rendering hook misbehaves — is false: the `repr(item)` fallback of utils.py
line 106 is not guarded, so an object whose `__repr__` raises makes
`represent` raise; see the counterexample.) -/
theorem represent_total_of_hookFree (v : Value) (h : hookFree v = true) :
    (represent v).isSome = true := by
  unfold represent
  split
  · rfl
  · split
    · rfl
    · exact reprPy_isSome v h

theorem represent_total_of_hookFree_witness :
    (represent (Value.tuple [Value.str "x", Value.int 3,
      Value.obj (some "<Thing object>")])).isSome = true :=
  represent_total_of_hookFree
    (Value.tuple [Value.str "x", Value.int 3, Value.obj (some "<Thing object>")]) rfl

/-- Claim C4, counterexample to the claim as stated: an object whose
rendering hook raises makes `represent` raise (modelled by `none`). -/
theorem represent_total_counterexample : represent (Value.obj none) = none := rfl

/-- A string wrapped in single quotes differs from the bare string (the
wrapped form is two characters longer). -/
theorem squote_ne (t : String) : ("'" ++ t ++ "'") ≠ t := by
  intro ht
  have hlen := congrArg String.length ht
  rw [String.length_append, String.length_append] at hlen
  have h1 : String.length "'" = 1 := rfl
  rw [h1] at hlen
  omega

/-- Claim C5, confirmed.  `represent` follows the three-way decision table
with first-match-wins: a textual value yields the text wrapped in single
quotes with the content unaltered; a `bytes` or `bytearray` value yields
only its type descriptor, independent of the byte content; every other
value is handed to the host's default debug rendering `repr` (modelled by
`reprPy`).  In particular `represent('hello')` is `'hello'` (quoted),
`represent(123)` is `123`, and the rendering of any integer differs from
the rendering of the same digits as text. -/
theorem represent_decision_table (s : String) (b1 b2 c1 c2 : List Nat) (n : Int)
    (v : Value) (hv1 : isTextType v = false) (hv2 : isBinaryType v = false) :
    represent (Value.str s) = some ("'" ++ s ++ "'") ∧
    represent (Value.bytes b1) = some "<class 'bytes'>" ∧
    represent (Value.bytes b1) = represent (Value.bytes b2) ∧
    represent (Value.bytearray c1) = some "<class 'bytearray'>" ∧
    represent (Value.bytearray c1) = represent (Value.bytearray c2) ∧
    represent v = reprPy v ∧
    represent (Value.str "hello") = some "'hello'" ∧
    represent (Value.int 123) = some "123" ∧
    represent (Value.str (toString n)) ≠ represent (Value.int n) := by
  refine ⟨rfl, rfl, rfl, rfl, rfl, ?_, rfl, rfl, ?_⟩
  · unfold represent
    rw [hv1, hv2]
    simp
  · intro h
    have h' : "'" ++ toString n ++ "'" = toString n := by
      simpa [represent, isTextType, isBinaryType, strContent, reprPy] using h
    exact squote_ne (toString n) h'

theorem represent_decision_table_witness :
    represent (Value.str "x") = some ("'" ++ "x" ++ "'") ∧
    represent (Value.bytes [0]) = some "<class 'bytes'>" ∧
    represent (Value.bytes [0]) = represent (Value.bytes [1, 2]) ∧
    represent (Value.bytearray []) = some "<class 'bytearray'>" ∧
    represent (Value.bytearray []) = represent (Value.bytearray [7]) ∧
    represent Value.pynone = reprPy Value.pynone ∧
    represent (Value.str "hello") = some "'hello'" ∧
    represent (Value.int 123) = some "123" ∧
    represent (Value.str (toString (5 : Int))) ≠ represent (Value.int 5) :=
  represent_decision_table "x" [0] [1, 2] [] [7] 5 Value.pynone rfl rfl

/-- Claim C6, amended.  The binder never consults the variadic-keyword name:
the result is identical for any two values of the `varkw` field, and every
keyword argument whose name is not among the declared positional names is
merged flat into the result under its own name (utils.py line 257), never
nested in a sub-mapping under the variadic-keyword name.  (The claim as
stated — undeclared keywords are placed in a sub-mapping under `varkw`
because Python distinguishes them — is false for this code; see the
counterexample.) -/
theorem varkw_flat_merge (A : List String) (va vk vk' : Option String)
    (D : List Value) (args : List Value) (kwargs : List (String × Value))
    (n : String) (v : Value)
    (hnd : (keys kwargs).Nodup)
    (hlk : getk kwargs n = some v)
    (hn : n ∉ A) :
    bindParameters ⟨A, va, vk, D⟩ args kwargs =
      bindParameters ⟨A, va, vk', D⟩ args kwargs ∧
    getk (bindParameters ⟨A, va, vk, D⟩ args kwargs) n = some v := by
  constructor
  · rfl
  · exact getk_bindParameters_kwargs hnd hlk (keyFree_zip_of_not_mem hn)

theorem varkw_flat_merge_witness :
    bindParameters ⟨["a"], none, some "d", []⟩ [Value.int 1] [("e", Value.int 6)] =
      bindParameters ⟨["a"], none, none, []⟩ [Value.int 1] [("e", Value.int 6)] ∧
    getk (bindParameters ⟨["a"], none, some "d", []⟩ [Value.int 1]
      [("e", Value.int 6)]) "e" = some (Value.int 6) :=
  varkw_flat_merge ["a"] none (some "d") none [] [Value.int 1]
    [("e", Value.int 6)] "e" (Value.int 6) (by decide) rfl (by decide)

/-- Claim C6, counterexample to the claim as stated.  Signature `(a, **d)`
called as `f(1, e=6)`: the claim requires the result to hold a sub-mapping
under `d` containing `e`; the code instead merges `e` flat and never creates
a `d` key. -/
theorem varkw_flat_merge_counterexample :
    func_parameters ⟨["a"], none, some "d", []⟩ [Value.int 1] [("e", Value.int 6)] =
      some [("e", "6"), ("a", "1")] ∧
    getk [("e", "6"), ("a", "1")] "d" = none ∧
    getk [("e", "6"), ("a", "1")] "e" = some "6" :=
  ⟨rfl, rfl, rfl⟩

/-- Claim C7, amended.  For a signature with a variadic-positional name that
does not collide with a declared positional name or a caller keyword name,
the variadic key is bound in the result exactly when the call supplies more
positional values than there are declared positional names, and then to the
tuple of the surplus values in original order.  (The claim as stated — the
iff holds for every call — is false: a keyword argument spelled like the
variadic name is merged by utils.py line 257 and makes the key appear with
no surplus, and would likewise overwrite a genuine surplus tuple; see the
counterexample.) -/
theorem varargs_overflow (spec : ArgSpec) (args : List Value)
    (kwargs : List (String × Value)) (r : String)
    (hv : spec.varargs = some r)
    (hk : ∀ p ∈ kwargs, p.1 ≠ r)
    (ha : r ∉ spec.args) :
    getk (bindParameters spec args kwargs) r =
      if spec.args.length < args.length then
        some (Value.tuple (args.drop spec.args.length))
      else none := by
  have h1 : keyFree (withDefaults spec args []) r := by
    refine keyFree_withDefaults ?_ (keyFree_nil r)
    intro x hx hxr
    exact ha (hxr ▸ List.mem_of_mem_drop hx)
  have h3 : keyFree (finalArgsDict spec args) r :=
    keyFree_finalArgsDict (keyFree_zip_of_not_mem ha)
  unfold bindParameters
  rw [getk_update_of_keyFree h3, getk_update_of_keyFree hk]
  unfold withVarargs
  rw [hv]
  simp only
  by_cases hs : (args.drop spec.args.length).isEmpty
  · rw [if_pos hs]
    have hle : args.length ≤ spec.args.length :=
      List.drop_eq_nil_iff.1 (List.isEmpty_iff.1 hs)
    rw [if_neg (by omega)]
    exact getk_eq_none_of_keyFree h1
  · rw [if_neg hs]
    have hlt : spec.args.length < args.length := by
      have h' : ¬ args.length ≤ spec.args.length := fun hle =>
        hs (List.isEmpty_iff.2 (List.drop_eq_nil_of_le hle))
      omega
    rw [if_pos hlt]
    exact getk_setk_self _ r _

theorem varargs_overflow_witness :
    getk (bindParameters ⟨["a"], some "rest", none, []⟩
      [Value.int 1, Value.int 2, Value.int 3] []) "rest" =
      if (1 : Nat) < 3 then
        some (Value.tuple ([Value.int 1, Value.int 2, Value.int 3].drop 1))
      else none :=
  varargs_overflow ⟨["a"], some "rest", none, []⟩
    [Value.int 1, Value.int 2, Value.int 3] [] "rest" rfl (by decide) (by decide)

/-- Claim C7, counterexample to the claim as stated.  Signature `(a, *rest)`
called as `f(1, rest=7)`: one positional value, one declared name, so no
surplus, yet the result contains the key `rest` (bound to the keyword
value), refuting the only-if direction of the claimed equivalence. -/
theorem varargs_overflow_counterexample :
    func_parameters ⟨["a"], some "rest", none, []⟩ [Value.int 1]
      [("rest", Value.int 7)] = some [("rest", "7"), ("a", "1")] ∧
    getk [("rest", "7"), ("a", "1")] "rest" = some "7" :=
  ⟨rfl, rfl⟩

/-- Claim C8, code bug.  The claim (the spec's stated edge-case contract:
best-effort reconstruction never fails and simply omits a required
parameter that was not supplied) requires signature `(a, b=2)` called with
no arguments to omit `a`; because utils.py line 247 zips
`arg_spec.args[len(args):]` — here `['a', 'b']` — against the defaults
tuple `(2,)`, the code returns normally but binds the required parameter
`a` to `b`'s default `2` (and reports no `b` at all).  This theorem
evaluates the translated code at that failing input. -/
theorem required_param_not_absent :
    func_parameters ⟨["a", "b"], none, none, [Value.int 2]⟩ [] [] =
      some [("a", "2")] ∧
    getk [("a", "2")] "a" = some "2" ∧
    getk [("a", "2")] "b" = none :=
  ⟨rfl, rfl, rfl⟩

/-- Zipping a list against a truncation of the second list to the first
list's length is the same as zipping against the full second list. -/
theorem zip_take_length {α β : Type} (A : List α) (l : List β) :
    List.zip A (l.take A.length) = List.zip A l := by
  induction A generalizing l with
  | nil => rfl
  | cons a A ih =>
      cases l with
      | nil => rfl
      | cons b l =>
          simp only [List.length_cons, List.take_succ_cons, List.zip_cons_cons]
          rw [ih]

/-- Dropping `min (length A) m` elements is the same as dropping `m`. -/
theorem drop_min_length {α : Type} (A : List α) (m : Nat) :
    A.drop (min A.length m) = A.drop m := by
  rcases le_total A.length m with h | h
  · rw [min_eq_left h, List.drop_eq_nil_of_le le_rfl, List.drop_eq_nil_of_le h]
  · rw [min_eq_right h]

/-- Claim C9, confirmed.  `format_exception` returns `none` exactly when
both the error kind and the error value are absent, and otherwise the
newline-joined rendering produced by the host's exception renderer
(`format_exception_only`, passed here as the explicit collaborator `feo`).
Totality and freedom from side effects hold by construction: the
translation is a pure total function for every total renderer. -/
theorem format_exception_spec {α β : Type} (feo : Option α → Option β → List String)
    (etype : Option α) (value : Option β) :
    (format_exception feo etype value = none ↔ etype = none ∧ value = none) ∧
    ((etype = none ∧ value = none) ∨
      format_exception feo etype value =
        some (String.intercalate "\n" (feo etype value))) := by
  cases etype <;> cases value <;> simp [format_exception]

theorem format_exception_spec_witness :
    format_exception (fun (_ : Option String) (_ : Option String) =>
        ["AssertionError: boom"]) (some "AssertionError") none =
      some (String.intercalate "\n" ["AssertionError: boom"]) ∧
    format_exception (fun (_ : Option String) (_ : Option String) =>
        ["AssertionError: boom"]) none none = none := by
  constructor
  · exact ((format_exception_spec (fun _ _ => ["AssertionError: boom"])
      (some "AssertionError") none).2).resolve_left (by simp)
  · exact ((format_exception_spec (fun _ _ => ["AssertionError: boom"])
      none none).1).2 ⟨rfl, rfl⟩

/-- Claim C10, confirmed.  For a signature with no variadic-positional name,
surplus positional values are silently discarded: the whole snapshot equals
the snapshot of the call truncated to the declared names (so no error can
arise from the surplus and no extra key can come from it), and any key that
is neither a declared positional name nor a caller keyword name is absent
from the binding. -/
theorem surplus_discarded (spec : ArgSpec) (args : List Value)
    (kwargs : List (String × Value)) (k : String)
    (h : spec.varargs = none)
    (hk1 : k ∉ spec.args)
    (hk2 : ∀ p ∈ kwargs, p.1 ≠ k) :
    func_parameters spec args kwargs =
      func_parameters spec (args.take spec.args.length) kwargs ∧
    getk (bindParameters spec args kwargs) k = none := by
  constructor
  · have hzip : List.zip spec.args (args.take spec.args.length) =
        List.zip spec.args args := zip_take_length spec.args args
    have hdrop : spec.args.drop (args.take spec.args.length).length =
        spec.args.drop args.length := by
      rw [List.length_take]
      exact drop_min_length spec.args args.length
    have hbind : bindParameters spec args kwargs =
        bindParameters spec (args.take spec.args.length) kwargs := by
      simp only [bindParameters, finalArgsDict, argsDict, withVarargs,
        withDefaults, h, hzip, hdrop]
    unfold func_parameters
    rw [hbind]
  · have h1 : keyFree (withDefaults spec args []) k := by
      refine keyFree_withDefaults ?_ (keyFree_nil k)
      intro x hx hxk
      exact hk1 (hxk ▸ List.mem_of_mem_drop hx)
    have h2 : keyFree (withVarargs spec args (withDefaults spec args [])) k := by
      unfold withVarargs
      rw [h]
      exact h1
    have h3 : keyFree (finalArgsDict spec args) k :=
      keyFree_finalArgsDict (keyFree_zip_of_not_mem hk1)
    exact getk_bindParameters_none h2 hk2 h3

theorem surplus_discarded_witness :
    func_parameters ⟨["a"], none, none, []⟩ [Value.int 1, Value.int 2] [] =
      func_parameters ⟨["a"], none, none, []⟩ ([Value.int 1, Value.int 2].take 1) [] ∧
    getk (bindParameters ⟨["a"], none, none, []⟩ [Value.int 1, Value.int 2] []) "z" =
      none :=
  surplus_discarded ⟨["a"], none, none, []⟩ [Value.int 1, Value.int 2] [] "z"
    rfl (by decide) (by decide)
